import Mathlib

/-!
Verification of the MometumFinder screener engine.

This file shallowly embeds the client-side logic of the repository's
screener (src/frontend/src/components/Screener.jsx), the Signals view's
signal-type filter (src/frontend/src/components/Signals.jsx, packaged in
App.jsx), and the market-hours helper (src/frontend/src/App.jsx), and
proves the behavioural properties stated in the specification.

JavaScript records are modelled as association lists of string keys to a
small universe of primitive values (null/undefined merged into one `null`
constructor: everywhere this code touches them — `??`, `?.`, truthiness,
`filter(Boolean)` — the two behave identically).  Numbers stored in
records are modelled as `Int` (every numeric record value the verified
properties exercise is an integer); the string-to-number conversion the
comparator can trigger follows the ECMAScript StringToNumber grammar with
exact decimal values, the engine's further IEEE-754 rounding being below
the granularity any claim exercises.
`Array.prototype.sort` (stable per ECMAScript 2019) is modelled by a
stable insertion sort, keeping `a` before `b` whenever the comparator
does not order `b` strictly first.
-/

namespace MomentumFinder

/-- A JavaScript primitive value as stored in a screener record field.
`null` stands for both JS `null` and `undefined` (indistinguishable to all
operations this code performs on record fields). -/
inductive JSVal where
  | null : JSVal
  | num : Int → JSVal
  | str : String → JSVal
deriving DecidableEq, Repr

/-- A fetched instrument record: a JS object, modelled as an association
list from field name to value. -/
abbrev Stock := List (String × JSVal)

/-- Property access `s[k]`: an absent field reads as undefined, merged
into `JSVal.null` here. -/
def jsGet (s : Stock) (k : String) : JSVal :=
  (s.lookup k).getD JSVal.null

/-- The record `s` with field `k` overridden to `v` (all other fields
read unchanged). -/
def setField (s : Stock) (k : String) (v : JSVal) : Stock :=
  (k, v) :: s

/-- JS truthiness (`Boolean(v)`) for the values in play: null/undefined
and the empty string are falsy, `0` is falsy, everything else truthy. -/
def truthy : JSVal → Bool
  | .null => false
  | .num n => n != 0
  | .str s => s != ""

/-- The nullish-coalescing operator `v ?? d`: `d` exactly when `v` is
null/undefined, otherwise `v` itself (a string or number passes through
untouched). -/
def nullish (v d : JSVal) : JSVal :=
  match v with
  | .null => d
  | x => x

/-- Strict lexicographic order on character lists, the order underlying
JS string comparison (code-unit comparison; identical to code-point
comparison on the values in play). -/
def charListLt : List Char → List Char → Bool
  | _, [] => false
  | [], _ :: _ => true
  | a :: as, b :: bs => if a < b then true else if b < a then false else charListLt as bs

/-- `s < t` on JS strings. -/
def strLtB (s t : String) : Bool := charListLt s.data t.data

/-- `s ≤ t` on JS strings: not strictly greater. -/
def strLeB (s t : String) : Bool := !(charListLt t.data s.data)

/-- `s.toLowerCase()` (ASCII-faithful lowercasing, character by
character). -/
def jsToLower (s : String) : String := String.mk (s.data.map Char.toLower)

/-- The result of a successful ECMAScript ToNumber conversion, kept
exact: a finite decimal `mant * 10 ^ exp`, or an infinity.  NaN is
`none` at the use sites.  A JS engine additionally rounds the finite
values to IEEE-754 doubles; that rounding is below the granularity any
property here exercises, so values are compared exactly. -/
inductive JSNum where
  | finite : Int → Int → JSNum
  | inf : JSNum
  | negInf : JSNum
deriving DecidableEq, Repr

/-- Exact order on converted numbers: scale the two decimal mantissas to
a common power of ten and compare; the infinities bound everything. -/
def ltJSNum : JSNum → JSNum → Bool
  | .finite m1 e1, .finite m2 e2 =>
    if e1 ≤ e2 then decide (m1 < m2 * 10 ^ (e2 - e1).toNat)
    else decide (m1 * 10 ^ (e1 - e2).toNat < m2)
  | .finite _ _, .inf => true
  | .negInf, .finite _ _ => true
  | .negInf, .inf => true
  | _, _ => false

/-- ECMAScript StrWhiteSpaceChar: the WhiteSpace and LineTerminator code
points that StringToNumber strips around the numeric literal. -/
def isStrWhiteSpace (c : Char) : Bool :=
  c == ' ' || c == '\t' || c == '\n' || c == '\r'
    || c.toNat == 0xb || c.toNat == 0xc || c.toNat == 0xa0 || c.toNat == 0xfeff
    || c.toNat == 0x1680
    || (decide (0x2000 ≤ c.toNat) && decide (c.toNat ≤ 0x200a))
    || c.toNat == 0x2028 || c.toNat == 0x2029 || c.toNat == 0x202f
    || c.toNat == 0x205f || c.toNat == 0x3000

/-- Strip leading and trailing StrWhiteSpace. -/
def trimWs (l : List Char) : List Char :=
  ((l.dropWhile isStrWhiteSpace).reverse.dropWhile isStrWhiteSpace).reverse

/-- Value of a run of decimal digits. -/
def digitsToNat (l : List Char) : Nat :=
  l.foldl (fun acc c => acc * 10 + (c.toNat - 48)) 0

/-- Hexadecimal digit of a NonDecimalIntegerLiteral. -/
def isHexDigitB (c : Char) : Bool :=
  c.isDigit || ('a' ≤ c && c ≤ 'f') || ('A' ≤ c && c ≤ 'F')

/-- Value of a hexadecimal digit. -/
def hexDigitVal (c : Char) : Nat :=
  if c.isDigit then c.toNat - 48
  else if 'a' ≤ c && c ≤ 'f' then c.toNat - 87
  else c.toNat - 55

/-- Octal digit of a NonDecimalIntegerLiteral. -/
def isOctDigitB (c : Char) : Bool := '0' ≤ c && c ≤ '7'

/-- Binary digit of a NonDecimalIntegerLiteral. -/
def isBinDigitB (c : Char) : Bool := c == '0' || c == '1'

/-- Value of a digit run in the given base. -/
def digitsToNatBase (base : Nat) (val : Char → Nat) (l : List Char) : Nat :=
  l.foldl (fun acc c => acc * base + val c) 0

/-- `0x…` / `0o…` / `0b…` NonDecimalIntegerLiteral body: at least one
digit, all digits of the radix; anything else is NaN. -/
def parseRadix (base : Nat) (pred : Char → Bool) (val : Char → Nat)
    (l : List Char) : Option JSNum :=
  if !l.isEmpty && l.all pred then
    some (.finite (digitsToNatBase base val l) 0)
  else none

/-- ExponentPart of a StrDecimalLiteral: `e`/`E` and an optionally
signed digit run.  An absent exponent contributes 0; any other trailing
text makes the whole literal NaN. -/
def parseExpPart : List Char → Option Int
  | [] => some 0
  | c :: rest =>
    if c == 'e' || c == 'E' then
      match rest with
      | '+' :: ds =>
        if !ds.isEmpty && ds.all Char.isDigit then some (digitsToNat ds) else none
      | '-' :: ds =>
        if !ds.isEmpty && ds.all Char.isDigit then some (-(digitsToNat ds : Int)) else none
      | ds =>
        if !ds.isEmpty && ds.all Char.isDigit then some (digitsToNat ds) else none
    else none

/-- StrUnsignedDecimalLiteral: `Infinity`, or decimal digits with an
optional fraction and exponent (at least one digit on one side of the
dot). -/
def parseUnsignedDec (sign : Int) (l : List Char) : Option JSNum :=
  if l == "Infinity".data then some (if sign < 0 then JSNum.negInf else JSNum.inf)
  else
    let ip := l.takeWhile Char.isDigit
    let rest1 := l.dropWhile Char.isDigit
    match rest1 with
    | '.' :: rest2 =>
      let fp := rest2.takeWhile Char.isDigit
      let rest3 := rest2.dropWhile Char.isDigit
      if ip.isEmpty && fp.isEmpty then none
      else
        match parseExpPart rest3 with
        | some ex => some (.finite (sign * digitsToNat (ip ++ fp)) (ex - fp.length))
        | none => none
    | _ =>
      if ip.isEmpty then none
      else
        match parseExpPart rest1 with
        | some ex => some (.finite (sign * digitsToNat ip) ex)
        | none => none

/-- StrDecimalLiteral: optional sign and an unsigned decimal literal
(the sign is not permitted on the radix-prefixed forms). -/
def parseSignedDec : List Char → Option JSNum
  | '+' :: rest => parseUnsignedDec 1 rest
  | '-' :: rest => parseUnsignedDec (-1) rest
  | l => parseUnsignedDec 1 l

/-- ECMAScript StringToNumber: surrounding StrWhiteSpace is ignored, an
empty remainder converts to +0, and otherwise the remainder must be
exactly one StrNumericLiteral — a `0x`/`0o`/`0b` integer or a signed
decimal literal (`Infinity` included).  Everything else is NaN. -/
def jsStrToNumber (s : String) : Option JSNum :=
  match trimWs s.data with
  | [] => some (.finite 0 0)
  | [c] => parseSignedDec [c]
  | c1 :: c2 :: rest =>
    if c1 == '0' && (c2 == 'x' || c2 == 'X') then
      parseRadix 16 isHexDigitB hexDigitVal rest
    else if c1 == '0' && (c2 == 'o' || c2 == 'O') then
      parseRadix 8 isOctDigitB (fun c => c.toNat - 48) rest
    else if c1 == '0' && (c2 == 'b' || c2 == 'B') then
      parseRadix 2 isBinDigitB (fun c => c.toNat - 48) rest
    else parseSignedDec (c1 :: c2 :: rest)

/-- ECMAScript ToNumber for the value shapes the comparator can see: a
number is itself, a string goes through StringToNumber (`none` is NaN).
`null` never reaches a relational comparison in the embedded code (the
comparator coalesces it to 0 first); it is given undefined's NaN
behaviour. -/
def toNumber : JSVal → Option JSNum
  | .num n => some (.finite n 0)
  | .str s => jsStrToNumber s
  | .null => none

/-- The ECMAScript abstract relational comparison `a < b` on primitives:
two strings compare lexicographically; otherwise both sides go through
ToNumber and any comparison involving NaN is false. -/
def jsLt (a b : JSVal) : Bool :=
  match a, b with
  | .str s, .str t => strLtB s t
  | u, v =>
    match toNumber u, toNumber v with
    | some x, some y => ltJSNum x y
    | _, _ => false

/-- `a > b` in JS is the relational comparison `b < a` (same result on
primitive values). -/
def jsGt (a b : JSVal) : Bool := jsLt b a

/-- Strict equality `v === t` between a record field and a string filter
value: true exactly for the identical string (a null or numeric field is
never strictly equal to a string). -/
def jsStrictEqStr (v : JSVal) (t : String) : Bool :=
  match v with
  | .str u => u == t
  | _ => false

/-- `s.includes(sub)`: substring containment. -/
def strIncludes (s sub : String) : Bool :=
  decide (sub.toList <:+: s.toList)

/-- The sort configuration state of the Screener component
(`{ key, direction }`, direction one of "asc" / "desc"). -/
structure SortConfig where
  key : String
  direction : String
deriving DecidableEq, Repr

/-- The comparator passed to `result.sort` in Screener.jsx lines 61-68:
each side's sort-key field is read and coalesced with `?? 0`, then
ascending returns 1 iff `aVal > bVal` else -1, and descending returns
1 iff `aVal < bVal` else -1.  It never returns 0. -/
def sortComparator (cfg : SortConfig) (a b : Stock) : Int :=
  let aVal := nullish (jsGet a cfg.key) (JSVal.num 0)
  let bVal := nullish (jsGet b cfg.key) (JSVal.num 0)
  if cfg.direction == "asc" then
    if jsGt aVal bVal then 1 else -1
  else
    if jsLt aVal bVal then 1 else -1

/-- Insert `a` into `l` before the first element that `a` may precede:
the insertion step of a stable insertion sort. -/
def insertLe {α : Type} (le : α → α → Bool) (a : α) : List α → List α
  | [] => [a]
  | b :: bs => if le a b then a :: b :: bs else b :: insertLe le a bs

/-- Stable insertion sort.  ECMAScript requires `Array.prototype.sort`
to be stable; on a consistent comparator every stable sort produces the
same list, so this is a faithful model of the engine's sort. -/
def sortLe {α : Type} (le : α → α → Bool) : List α → List α
  | [] => []
  | a :: as => insertLe le a (sortLe le as)

/-- `arr.sort(cmp)`: stable sort keeping `a` before `b` whenever
`cmp a b ≤ 0`. -/
def jsSortBy (cmp : Stock → Stock → Int) (l : List Stock) : List Stock :=
  sortLe (fun a b => decide (cmp a b ≤ 0)) l

/-- The search predicate of Screener.jsx lines 42-48:
`s.symbol?.toLowerCase().includes(term) || s.name?.toLowerCase().includes(term)`
with `term = searchTerm.toLowerCase()`.  A null/undefined field
short-circuits the optional chain to a falsy result. -/
def searchPred (searchTerm : String) (s : Stock) : Bool :=
  let term := jsToLower searchTerm
  (match jsGet s "symbol" with
   | .str t => strIncludes (jsToLower t) term
   | _ => false)
  ||
  (match jsGet s "name" with
   | .str t => strIncludes (jsToLower t) term
   | _ => false)

/-- The filter chain of Screener.jsx lines 39-58: starting from the
spread copy `[...stocks]`, each of the three filters is applied only when
its criterion is truthy (a non-empty string). -/
def applyFilters (searchTerm sectorFilter signalFilter : String)
    (stocks : List Stock) : List Stock :=
  let result := stocks
  let result := if searchTerm != "" then result.filter (searchPred searchTerm) else result
  let result := if sectorFilter != "" then
      result.filter (fun s => jsStrictEqStr (jsGet s "sector") sectorFilter)
    else result
  if signalFilter != "" then
    result.filter (fun s => jsStrictEqStr (jsGet s "signal_type") signalFilter)
  else result

/-- The `filteredStocks` memo of Screener.jsx lines 38-72: the filter
chain followed by the comparator sort. -/
def filteredStocks (stocks : List Stock) (searchTerm sectorFilter signalFilter : String)
    (sortConfig : SortConfig) : List Stock :=
  jsSortBy (sortComparator sortConfig)
    (applyFilters searchTerm sectorFilter signalFilter stocks)

/-- First-occurrence deduplication with an explicit seen set: the
semantics of spreading a JS `Set` built from a list. -/
def setDedupGo (seen : List JSVal) : List JSVal → List JSVal
  | [] => []
  | x :: xs => if x ∈ seen then setDedupGo seen xs else x :: setDedupGo (x :: seen) xs

/-- `[...new Set(l)]`: the elements of `l`, first occurrences only. -/
def setDedup (l : List JSVal) : List JSVal := setDedupGo [] l

/-- ECMAScript ToString for the values in play, as used by the default
`Array.prototype.sort()` comparator. -/
def jsToString : JSVal → String
  | .str s => s
  | .num n => toString n
  | .null => "null"

/-- The `sectors` memo of Screener.jsx lines 32-35:
`[...new Set(stocks.map(s => s.sector).filter(Boolean))].sort()` —
sector values, falsy ones dropped, deduplicated, sorted by the default
string comparison. -/
def sectors (stocks : List Stock) : List JSVal :=
  sortLe (fun a b => strLeB (jsToString a) (jsToString b))
    (setDedup ((stocks.map (fun s => jsGet s "sector")).filter truthy))

/-- `handleSort` of Screener.jsx lines 74-79: clicking a column header
keeps the key and computes the next direction as "asc" exactly when the
same key was already sorted descending, otherwise "desc". -/
def handleSort (prev : SortConfig) (key : String) : SortConfig :=
  { key := key
    direction := if prev.key == key && prev.direction == "desc" then "asc" else "desc" }

/-- The Screener's sector dropdown handler (Screener.jsx lines 137-146):
`onChange = e => setSectorFilter(e.target.value)` — the new filter state
is the chosen value, whatever the current state is. -/
def selectSectorFilter (_current chosen : String) : String := chosen

/-- The Signals view's summary-card handler (Signals.jsx):
`onClick = () => setFilter(filter === type ? '' : type)` — clicking the
active type clears the filter, clicking another sets it. -/
def signalsToggleFilter (current ty : String) : String :=
  if current == ty then "" else ty

/-- A wall-clock instant as the code reads it off a JS `Date`:
`getDay()` (0 = Sunday … 6 = Saturday), `getHours()`, `getMinutes()`. -/
structure LocalDateTime where
  day : Nat
  hours : Nat
  minutes : Nat

/-- `isMarketOpen` of App.jsx lines 115-129: false on Saturday/Sunday,
otherwise true iff the minutes-since-midnight lie in [9*60+15, 15*60+30]. -/
def isMarketOpen (d : LocalDateTime) : Bool :=
  let totalMinutes := d.hours * 60 + d.minutes
  if d.day == 0 || d.day == 6 then false
  else
    let marketOpen := 9 * 60 + 15
    let marketClose := 15 * 60 + 30
    decide (marketOpen ≤ totalMinutes) && decide (totalMinutes ≤ marketClose)

/-- The Screener component's state relevant to the derivation. -/
structure ScreenerState where
  stocks : List Stock
  searchTerm : String
  sectorFilter : String
  signalFilter : String
  sortConfig : SortConfig
deriving DecidableEq

/-- One recomputation of the two memoized derivations.  In the source the
sort is invoked on `result = [...stocks]` (Screener.jsx line 39), a fresh
copy of the stored array, so the component state — in particular the
fetched collection — is returned unchanged. -/
def recomputeView (st : ScreenerState) : (List JSVal × List Stock) × ScreenerState :=
  ((sectors st.stocks,
    filteredStocks st.stocks st.searchTerm st.sectorFilter st.signalFilter st.sortConfig),
   st)

/-- The conjunction of all active filter predicates: an empty criterion
counts as always-true for its predicate. -/
def activePass (searchTerm sectorFilter signalFilter : String) (s : Stock) : Bool :=
  (searchTerm == "" || searchPred searchTerm s)
  && (sectorFilter == "" || jsStrictEqStr (jsGet s "sector") sectorFilter)
  && (signalFilter == "" || jsStrictEqStr (jsGet s "signal_type") signalFilter)

/-- Scenario record A from the specification's test properties. -/
def recA : Stock :=
  [("symbol", JSVal.str "A"), ("sector", JSVal.str "IT"), ("momentumScore", JSVal.num 80)]

/-- Scenario record B. -/
def recB : Stock :=
  [("symbol", JSVal.str "B"), ("sector", JSVal.str "IT"), ("momentumScore", JSVal.num 40)]

/-- Scenario record C, with a null momentum score. -/
def recC : Stock :=
  [("symbol", JSVal.str "C"), ("sector", JSVal.str "Pharma"), ("momentumScore", JSVal.null)]

/-- The specification's three-record scenario collection. -/
def scenarioRecords : List Stock := [recA, recB, recC]

/-- A record whose sort-key field holds a malformed (non-numeric string)
value. -/
def recMalformed : Stock :=
  [("symbol", JSVal.str "X"), ("momentum_score", JSVal.str "abc")]

/-- A record with a negative sort-key value, separating NaN behaviour
from treat-as-zero behaviour. -/
def recNeg : Stock :=
  [("symbol", JSVal.str "Y"), ("momentum_score", JSVal.num (-5))]

/-- A record whose sort-key field holds the empty string, which
ToNumber converts to 0. -/
def recEmptyStr : Stock :=
  [("symbol", JSVal.str "Z"), ("momentum_score", JSVal.str "")]

/-- A record carrying both a symbol and a display name. -/
def recD : Stock :=
  [("symbol", JSVal.str "INFY.NS"), ("name", JSVal.str "Infosys"),
   ("sector", JSVal.str "IT"), ("momentumScore", JSVal.num 65)]

/-- Discriminator for numeric values, used to state that a collection's
sector fields have the shape the data model records for them (string or
null/absent). -/
def isNum : JSVal → Bool
  | .num _ => true
  | _ => false

/-! ### Order-theoretic facts about the embedded string comparison -/

theorem charListLt_irrefl : ∀ (a : List Char), charListLt a a = false
  | [] => rfl
  | a :: as => by simp [charListLt, lt_irrefl a, charListLt_irrefl as]

theorem charListLt_trichotomy :
    ∀ (a b : List Char), charListLt a b = true ∨ a = b ∨ charListLt b a = true
  | [], [] => Or.inr (Or.inl rfl)
  | [], _ :: _ => Or.inl rfl
  | _ :: _, [] => Or.inr (Or.inr rfl)
  | a :: as, b :: bs => by
    rcases lt_trichotomy a b with h | h | h
    · exact Or.inl (by simp [charListLt, h])
    · subst h
      rcases charListLt_trichotomy as bs with h2 | h2 | h2
      · exact Or.inl (by simp [charListLt, lt_irrefl a, h2])
      · exact Or.inr (Or.inl (by rw [h2]))
      · exact Or.inr (Or.inr (by simp [charListLt, lt_irrefl a, h2]))
    · exact Or.inr (Or.inr (by simp [charListLt, h]))

theorem charListLt_trans :
    ∀ (a b c : List Char), charListLt a b = true → charListLt b c = true →
      charListLt a c = true
  | _, b, [] => by intro _ h2; cases b <;> simp [charListLt] at h2
  | [], b, _ :: _ => by intro _ _; rfl
  | _ :: _, [], _ :: _ => by intro h1 _; simp [charListLt] at h1
  | a :: as, b :: bs, c :: cs => by
    intro h1 h2
    by_cases hab : a < b
    · by_cases hbc : b < c
      · have hac := lt_trans hab hbc
        simp [charListLt, hac]
      · by_cases hcb : c < b
        · simp [charListLt, hbc, hcb] at h2
        · have hbceq : b = c := le_antisymm (not_lt.mp hcb) (not_lt.mp hbc)
          subst hbceq
          simp [charListLt, hab]
    · by_cases hba : b < a
      · simp [charListLt, hab, hba] at h1
      · have habeq : a = b := le_antisymm (not_lt.mp hba) (not_lt.mp hab)
        subst habeq
        simp [charListLt, lt_irrefl a] at h1
        by_cases hac : a < c
        · simp [charListLt, hac]
        · by_cases hca : c < a
          · simp [charListLt, hac, hca] at h2
          · have haceq : a = c := le_antisymm (not_lt.mp hca) (not_lt.mp hac)
            subst haceq
            simp [charListLt, lt_irrefl a] at h2 ⊢
            exact charListLt_trans as bs cs h1 h2

theorem charListLt_asymm {a b : List Char}
    (h : charListLt a b = true) : charListLt b a = false := by
  by_contra hc
  have hba : charListLt b a = true := by
    cases hval : charListLt b a
    · exact absurd hval hc
    · rfl
  have := charListLt_trans a b a h hba
  rw [charListLt_irrefl] at this
  cases this

theorem strLeB_total (s t : String) : strLeB s t = true ∨ strLeB t s = true := by
  unfold strLeB
  rcases charListLt_trichotomy s.data t.data with h | h | h
  · exact Or.inl (by simp [charListLt_asymm h])
  · exact Or.inl (by simp [h, charListLt_irrefl])
  · exact Or.inr (by simp [charListLt_asymm h])

theorem strLeB_trans {s t u : String}
    (h1 : strLeB s t = true) (h2 : strLeB t u = true) : strLeB s u = true := by
  unfold strLeB at h1 h2 ⊢
  rw [Bool.not_eq_true'] at h1 h2 ⊢
  by_contra hc
  have hus : charListLt u.data s.data = true := by
    cases hval : charListLt u.data s.data
    · exact absurd hval hc
    · rfl
  rcases charListLt_trichotomy t.data u.data with h | h | h
  · have := charListLt_trans t.data u.data s.data h hus
    rw [h1] at this
    exact Bool.false_ne_true this
  · rw [← h] at hus
    rw [h1] at hus
    exact Bool.false_ne_true hus
  · rw [h2] at h
    exact Bool.false_ne_true h

theorem ltJSNum_irrefl : ∀ (x : JSNum), ltJSNum x x = false
  | .finite m e => by simp [ltJSNum, Int.sub_self]
  | .inf => rfl
  | .negInf => rfl

theorem jsLt_irrefl : ∀ (v : JSVal), jsLt v v = false
  | .null => rfl
  | .num n => by simp [jsLt, toNumber, ltJSNum_irrefl]
  | .str s => by simp [jsLt, strLtB, charListLt_irrefl]

/-! ### The stable sort: permutation, membership and sortedness -/

theorem insertLe_perm {α : Type} (le : α → α → Bool) (a : α) :
    ∀ (l : List α), (insertLe le a l).Perm (a :: l)
  | [] => List.Perm.refl [a]
  | b :: bs => by
    by_cases h : le a b
    · simp [insertLe, h]
    · simp only [insertLe, h, if_false]
      exact ((insertLe_perm le a bs).cons b).trans (List.Perm.swap a b bs)

theorem sortLe_perm {α : Type} (le : α → α → Bool) :
    ∀ (l : List α), (sortLe le l).Perm l
  | [] => List.Perm.refl []
  | a :: as => (insertLe_perm le a (sortLe le as)).trans ((sortLe_perm le as).cons a)

theorem mem_insertLe {α : Type} {le : α → α → Bool} {a x : α} {l : List α} :
    x ∈ insertLe le a l ↔ x = a ∨ x ∈ l := by
  rw [(insertLe_perm le a l).mem_iff, List.mem_cons]

theorem mem_sortLe {α : Type} {le : α → α → Bool} {x : α} {l : List α} :
    x ∈ sortLe le l ↔ x ∈ l :=
  (sortLe_perm le l).mem_iff

theorem pairwise_insertLe {α : Type} (le : α → α → Bool)
    (htrans : ∀ a b c, le a b = true → le b c = true → le a c = true)
    (htotal : ∀ a b, le a b = true ∨ le b a = true)
    (a : α) : ∀ (l : List α), l.Pairwise (fun x y => le x y = true) →
      (insertLe le a l).Pairwise (fun x y => le x y = true)
  | [], _ => by simp [insertLe]
  | b :: bs, hl => by
    rcases List.pairwise_cons.mp hl with ⟨hb, hbs⟩
    by_cases h : le a b = true
    · rw [insertLe, if_pos h, List.pairwise_cons]
      refine ⟨?_, hl⟩
      intro x hx
      rcases List.mem_cons.mp hx with rfl | hx
      · exact h
      · exact htrans a b x h (hb x hx)
    · have hba : le b a = true := by
        rcases htotal a b with hab | hba
        · exact absurd hab h
        · exact hba
      rw [insertLe, if_neg h, List.pairwise_cons]
      refine ⟨?_, pairwise_insertLe le htrans htotal a bs hbs⟩
      intro x hx
      rcases mem_insertLe.mp hx with rfl | hx
      · exact hba
      · exact hb x hx

theorem pairwise_sortLe {α : Type} (le : α → α → Bool)
    (htrans : ∀ a b c, le a b = true → le b c = true → le a c = true)
    (htotal : ∀ a b, le a b = true ∨ le b a = true) :
    ∀ (l : List α), (sortLe le l).Pairwise (fun x y => le x y = true)
  | [] => List.Pairwise.nil
  | a :: as =>
    pairwise_insertLe le htrans htotal a (sortLe le as) (pairwise_sortLe le htrans htotal as)

/-! ### Set spreading: membership and distinctness -/

theorem mem_setDedupGo (x : JSVal) :
    ∀ (l seen : List JSVal), x ∈ setDedupGo seen l ↔ x ∈ l ∧ x ∉ seen
  | [], seen => by simp [setDedupGo]
  | y :: ys, seen => by
    by_cases hy : y ∈ seen
    · rw [setDedupGo, if_pos hy, mem_setDedupGo x ys seen]
      constructor
      · exact fun ⟨h1, h2⟩ => ⟨List.mem_cons_of_mem y h1, h2⟩
      · rintro ⟨h1, h2⟩
        rcases List.mem_cons.mp h1 with rfl | h1
        · exact absurd hy h2
        · exact ⟨h1, h2⟩
    · rw [setDedupGo, if_neg hy, List.mem_cons, mem_setDedupGo x ys (y :: seen)]
      constructor
      · rintro (rfl | ⟨h1, h2⟩)
        · exact ⟨List.mem_cons_self x ys, hy⟩
        · exact ⟨List.mem_cons_of_mem y h1, fun hc => h2 (List.mem_cons_of_mem y hc)⟩
      · rintro ⟨h1, h2⟩
        rcases List.mem_cons.mp h1 with rfl | h1
        · exact Or.inl rfl
        · by_cases hxy : x = y
          · exact Or.inl hxy
          · exact Or.inr ⟨h1, fun hc => by
              rcases List.mem_cons.mp hc with h | h
              · exact hxy h
              · exact h2 h⟩

theorem nodup_setDedupGo :
    ∀ (l seen : List JSVal), (setDedupGo seen l).Nodup
  | [], _ => List.Pairwise.nil
  | y :: ys, seen => by
    by_cases hy : y ∈ seen
    · rw [setDedupGo, if_pos hy]
      exact nodup_setDedupGo ys seen
    · rw [setDedupGo, if_neg hy, List.nodup_cons]
      refine ⟨?_, nodup_setDedupGo ys (y :: seen)⟩
      intro hc
      exact ((mem_setDedupGo y ys (y :: seen)).mp hc).2 (List.mem_cons_self y seen)

theorem mem_setDedup {x : JSVal} {l : List JSVal} : x ∈ setDedup l ↔ x ∈ l := by
  rw [setDedup, mem_setDedupGo]
  simp

theorem nodup_setDedup (l : List JSVal) : (setDedup l).Nodup :=
  nodup_setDedupGo l []

/-! ### The filter chain collapses to one conjunction filter -/

theorem applyFilters_eq_filter (st sec sig : String) (stocks : List Stock) :
    applyFilters st sec sig stocks = stocks.filter (activePass st sec sig) := by
  have hbeq : ∀ (x : String), (x == "") = decide (x = "") := by
    intro x
    by_cases hx : x = "" <;> simp [hx]
  unfold applyFilters activePass
  by_cases h1 : st = "" <;> by_cases h2 : sec = "" <;> by_cases h3 : sig = "" <;>
    simp [hbeq, h1, h2, h3, List.filter_filter,
      Bool.and_comm, Bool.and_assoc, Bool.and_left_comm]

/-! ### Claims -/

/-- C1: for every record collection and every combination of search,
sector and signal criteria, the screener view contains exactly the
records that satisfy every active filter predicate (an empty criterion
counts as always-true), the sort contributing reordering only; and with
all criteria empty the view is a permutation of the full collection. -/
theorem view_exactly_filtered (stocks : List Stock) (st sec sig : String)
    (cfg : SortConfig) :
    (filteredStocks stocks st sec sig cfg).Perm (stocks.filter (activePass st sec sig))
    ∧ (filteredStocks stocks "" "" "" cfg).Perm stocks := by
  constructor
  · rw [filteredStocks, applyFilters_eq_filter, jsSortBy]
    exact sortLe_perm _ _
  · rw [filteredStocks, applyFilters_eq_filter, jsSortBy]
    refine (sortLe_perm _ _).trans ?_
    have hall : stocks.filter (activePass "" "" "") = stocks := by
      rw [List.filter_eq_self]
      intro a _
      simp [activePass]
    rw [hall]

/-- C9: recomputing the derived view and facets leaves the stored record
collection (and the rest of the component state) unchanged — the sort
acts on the spread copy made at Screener.jsx line 39 — and the computed
view is a pure derivation of the pre-state records and criteria. -/
theorem derivation_preserves_collection (st : ScreenerState) :
    (recomputeView st).2 = st
    ∧ (recomputeView st).2.stocks = st.stocks
    ∧ (recomputeView st).1.2.Perm
        (st.stocks.filter (activePass st.searchTerm st.sectorFilter st.signalFilter)) := by
  refine ⟨rfl, rfl, ?_⟩
  rw [recomputeView, filteredStocks, applyFilters_eq_filter, jsSortBy]
  exact sortLe_perm _ _

/-- C7: clicking the sort key that is already active flips the direction
(descending to ascending and ascending to descending); clicking a key
different from the active one selects it with direction descending. -/
theorem handleSort_toggle (prev : SortConfig) (k : String) :
    handleSort ⟨k, "desc"⟩ k = ⟨k, "asc"⟩
    ∧ handleSort ⟨k, "asc"⟩ k = ⟨k, "desc"⟩
    ∧ (prev.key ≠ k → handleSort prev k = ⟨k, "desc"⟩) := by
  refine ⟨by simp [handleSort], by simp [handleSort], ?_⟩
  intro h
  simp [handleSort, h]

/-- C7 witness at concrete inputs. -/
theorem handleSort_toggle_witness :
    handleSort ⟨"close", "desc"⟩ "close" = ⟨"close", "asc"⟩
    ∧ handleSort ⟨"close", "asc"⟩ "close" = ⟨"close", "desc"⟩
    ∧ (SortConfig.mk "momentum_score" "desc").key ≠ "close"
    ∧ handleSort ⟨"momentum_score", "desc"⟩ "close" = ⟨"close", "desc"⟩ := by
  have h := handleSort_toggle ⟨"momentum_score", "desc"⟩ "close"
  exact ⟨h.1, h.2.1, by decide, h.2.2 (by decide)⟩

/-- C5: the sort comparator never reports equality (it returns 1 or -1
for every pair), and on records with equal key values the descending
comparator is not the negation of the ascending one: both return -1, so
equal-keyed elements are not ordered by mutually inverse verdicts. -/
theorem comparator_never_ties (a b : Stock) (cfg : SortConfig) (k : String)
    (h : jsGet a k = jsGet b k) :
    (sortComparator cfg a b = 1 ∨ sortComparator cfg a b = -1)
    ∧ sortComparator ⟨k, "desc"⟩ a b = -1
    ∧ sortComparator ⟨k, "asc"⟩ a b = -1
    ∧ sortComparator ⟨k, "desc"⟩ a b ≠ -sortComparator ⟨k, "asc"⟩ a b := by
  have hlt := jsLt_irrefl (nullish (jsGet b k) (JSVal.num 0))
  refine ⟨?_, ?_, ?_, ?_⟩
  · cases hj : jsGt (nullish (jsGet a cfg.key) (JSVal.num 0))
        (nullish (jsGet b cfg.key) (JSVal.num 0)) <;>
      cases hl2 : jsLt (nullish (jsGet a cfg.key) (JSVal.num 0))
        (nullish (jsGet b cfg.key) (JSVal.num 0)) <;>
      by_cases hd : cfg.direction == "asc" <;>
      simp [sortComparator, hd, hj, hl2]
  · simp [sortComparator, h, hlt]
  · simp [sortComparator, jsGt, h, hlt]
  · simp [sortComparator, jsGt, h, hlt]

/-- C5 witness: two records with equal momentum scores. -/
theorem comparator_never_ties_witness :
    (sortComparator ⟨"momentumScore", "desc"⟩ recA recA = 1
      ∨ sortComparator ⟨"momentumScore", "desc"⟩ recA recA = -1)
    ∧ sortComparator ⟨"momentumScore", "desc"⟩ recA recA = -1
    ∧ sortComparator ⟨"momentumScore", "asc"⟩ recA recA = -1
    ∧ sortComparator ⟨"momentumScore", "desc"⟩ recA recA
        ≠ -sortComparator ⟨"momentumScore", "asc"⟩ recA recA :=
  comparator_never_ties recA recA ⟨"momentumScore", "desc"⟩ "momentumScore" rfl

/-- C6 counterexample: in the Screener, re-selecting the already-active
sector value does not clear the filter — the dropdown handler stores the
chosen value unconditionally, so the view stays filtered instead of
returning to the unfiltered ordering. -/
theorem sector_reselect_keeps_filter :
    selectSectorFilter "IT" "IT" = "IT"
    ∧ filteredStocks scenarioRecords "" (selectSectorFilter "IT" "IT") ""
        ⟨"momentumScore", "desc"⟩ = [recA, recB]
    ∧ filteredStocks scenarioRecords "" (selectSectorFilter "IT" "IT") ""
          ⟨"momentumScore", "desc"⟩
        ≠ filteredStocks scenarioRecords "" "" "" ⟨"momentumScore", "desc"⟩ := by
  refine ⟨rfl, by decide, by decide⟩

/-- C6 amended: toggle semantics belongs to the Signals view's
signal-type filter (clicking the active type clears it, clicking another
sets it); the Screener's sector dropdown has plain set semantics, so
re-selecting the active sector leaves the filter in place. -/
theorem filter_toggle_semantics (c t : String) :
    signalsToggleFilter t t = ""
    ∧ (c ≠ t → signalsToggleFilter c t = t)
    ∧ selectSectorFilter c t = t := by
  refine ⟨by simp [signalsToggleFilter], ?_, rfl⟩
  intro h
  simp [signalsToggleFilter, h]

/-- C6 amended witness at concrete filter values. -/
theorem filter_toggle_semantics_witness :
    signalsToggleFilter "Buy" "Buy" = ""
    ∧ ("Hold" : String) ≠ "Buy"
    ∧ signalsToggleFilter "Hold" "Buy" = "Buy"
    ∧ selectSectorFilter "Hold" "Buy" = "Buy" := by
  have h := filter_toggle_semantics "Hold" "Buy"
  exact ⟨h.1, by decide, h.2.1 (by decide), h.2.2⟩

/-- C10: the market-open indicator is true exactly on a weekday
(`getDay` between 1 and 5) with the time of day between 09:15 and 15:30
inclusive; on Saturday (6) and Sunday (0) it is false whatever the
time. -/
theorem isMarketOpen_weekday_window (d : LocalDateTime) (h m : Nat)
    (hday : d.day ≤ 6) :
    (isMarketOpen d = true ↔
      1 ≤ d.day ∧ d.day ≤ 5
        ∧ 9 * 60 + 15 ≤ d.hours * 60 + d.minutes
        ∧ d.hours * 60 + d.minutes ≤ 15 * 60 + 30)
    ∧ isMarketOpen ⟨0, h, m⟩ = false
    ∧ isMarketOpen ⟨6, h, m⟩ = false := by
  refine ⟨?_, by simp [isMarketOpen], by simp [isMarketOpen]⟩
  unfold isMarketOpen
  by_cases h0 : d.day = 0
  · simp [h0]
  · by_cases h6 : d.day = 6
    · simp [h6]
    · have hcond : (d.day == 0 || d.day == 6) = false := by
        simp [h0, h6]
      rw [hcond]
      simp only [Bool.false_eq_true, if_false, Bool.and_eq_true, decide_eq_true_eq]
      constructor
      · rintro ⟨hle, hge⟩
        exact ⟨by omega, by omega, hle, hge⟩
      · rintro ⟨_, _, hle, hge⟩
        exact ⟨hle, hge⟩

/-- Auxiliary shape fact: when sector fields are strings or null, every
facet is a non-empty string. -/
theorem sectors_elems_str (stocks : List Stock)
    (h : ∀ s ∈ stocks, isNum (jsGet s "sector") = false) :
    ∀ v ∈ sectors stocks, ∃ x : String, v = JSVal.str x ∧ x ≠ "" := by
  intro v hv
  rw [sectors, mem_sortLe, mem_setDedup, List.mem_filter] at hv
  rcases hv with ⟨hvmem, hvtruthy⟩
  rcases List.mem_map.mp hvmem with ⟨s, hs, rfl⟩
  have hnum := h s hs
  cases hval : jsGet s "sector" with
  | null => rw [hval] at hvtruthy; simp [truthy] at hvtruthy
  | num n => rw [hval] at hnum; simp [isNum] at hnum
  | str x =>
    refine ⟨x, rfl, ?_⟩
    rw [hval] at hvtruthy
    intro hx
    subst hx
    simp [truthy] at hvtruthy

/-- A weak order verdict on distinct strings is strict. -/
theorem strLtB_of_strLeB_of_ne {x y : String}
    (hle : strLeB x y = true) (hne : x ≠ y) : strLtB x y = true := by
  unfold strLeB at hle
  rw [Bool.not_eq_true'] at hle
  unfold strLtB
  rcases charListLt_trichotomy x.data y.data with h | h | h
  · exact h
  · exact absurd (String.ext h) hne
  · rw [h] at hle
    exact Bool.noConfusion hle

/-- C2: the derived facet list is the lexicographically sorted,
duplicate-free sequence of the non-empty sector values present in the
collection; records with a null, absent or empty sector contribute
nothing. -/
theorem facets_sorted_distinct (stocks : List Stock)
    (h : ∀ s ∈ stocks, isNum (jsGet s "sector") = false) :
    (sectors stocks).Pairwise (fun a b => strLtB (jsToString a) (jsToString b) = true)
    ∧ (sectors stocks).Nodup
    ∧ ∀ x : String,
        (JSVal.str x ∈ sectors stocks
          ↔ x ≠ "" ∧ ∃ s ∈ stocks, jsGet s "sector" = JSVal.str x) := by
  have hnodup : (sectors stocks).Nodup :=
    ((sortLe_perm (fun a b => strLeB (jsToString a) (jsToString b)) _).symm).nodup
      (nodup_setDedup _)
  have hle : (sectors stocks).Pairwise
      (fun a b => strLeB (jsToString a) (jsToString b) = true) := by
    rw [sectors]
    exact pairwise_sortLe (fun a b => strLeB (jsToString a) (jsToString b))
      (fun _ _ _ h1 h2 => strLeB_trans h1 h2) (fun a b => strLeB_total _ _) _
  refine ⟨?_, hnodup, ?_⟩
  · have hstr := sectors_elems_str stocks h
    refine (hle.and hnodup).imp_of_mem ?_
    intro a b ha hb hab
    rcases hstr a ha with ⟨x, rfl, _⟩
    rcases hstr b hb with ⟨y, rfl, _⟩
    refine strLtB_of_strLeB_of_ne hab.1 ?_
    intro hxy
    have hxy2 : x = y := by simpa [jsToString] using hxy
    exact hab.2 (by rw [hxy2])
  · intro x
    rw [sectors, mem_sortLe, mem_setDedup, List.mem_filter]
    constructor
    · rintro ⟨hmem, htr⟩
      rcases List.mem_map.mp hmem with ⟨s, hs, heq⟩
      refine ⟨?_, s, hs, heq⟩
      intro hx
      subst hx
      simp [truthy] at htr
    · rintro ⟨hx, s, hs, heq⟩
      exact ⟨List.mem_map.mpr ⟨s, hs, heq⟩, by simp [truthy, hx]⟩

/-- C2 witness on the scenario collection. -/
theorem facets_sorted_distinct_witness :
    (sectors scenarioRecords).Pairwise
        (fun a b => strLtB (jsToString a) (jsToString b) = true)
    ∧ (sectors scenarioRecords).Nodup
    ∧ ∀ x : String,
        (JSVal.str x ∈ sectors scenarioRecords
          ↔ x ≠ "" ∧ ∃ s ∈ scenarioRecords, jsGet s "sector" = JSVal.str x) :=
  facets_sorted_distinct scenarioRecords (by decide)

/-- C3: a record whose sort-key value is missing (null/undefined) is
ordered exactly as if the value were 0 — overwriting the field with
`num 0` changes no comparator verdict in either argument position — and
on the specification's scenario, sorting descending by momentumScore
yields [A(80), B(40), C(null→0)] with facets ["IT", "Pharma"]. -/
theorem missing_sortkey_as_zero (a b : Stock) (cfg : SortConfig)
    (ha : jsGet a cfg.key = JSVal.null) :
    sortComparator cfg a b
        = sortComparator cfg (setField a cfg.key (JSVal.num 0)) b
    ∧ sortComparator cfg b a
        = sortComparator cfg b (setField a cfg.key (JSVal.num 0))
    ∧ filteredStocks scenarioRecords "" "" "" ⟨"momentumScore", "desc"⟩
        = [recA, recB, recC]
    ∧ sectors scenarioRecords = [JSVal.str "IT", JSVal.str "Pharma"] := by
  have hset : jsGet (setField a cfg.key (JSVal.num 0)) cfg.key = JSVal.num 0 := by
    simp [setField, jsGet]
  refine ⟨?_, ?_, by decide, by decide⟩
  · unfold sortComparator
    rw [ha, hset]
    rfl
  · unfold sortComparator
    rw [ha, hset]
    rfl

/-- C3 witness: record C's missing momentumScore against record A. -/
theorem missing_sortkey_as_zero_witness :
    sortComparator ⟨"momentumScore", "desc"⟩ recC recA
        = sortComparator ⟨"momentumScore", "desc"⟩
            (setField recC "momentumScore" (JSVal.num 0)) recA
    ∧ sortComparator ⟨"momentumScore", "desc"⟩ recA recC
        = sortComparator ⟨"momentumScore", "desc"⟩ recA
            (setField recC "momentumScore" (JSVal.num 0))
    ∧ filteredStocks scenarioRecords "" "" "" ⟨"momentumScore", "desc"⟩
        = [recA, recB, recC]
    ∧ sectors scenarioRecords = [JSVal.str "IT", JSVal.str "Pharma"] :=
  missing_sortkey_as_zero recC recA ⟨"momentumScore", "desc"⟩ (by decide)

/-- C4 counterexample: a malformed string sort-key value ("abc") is NOT
sorted as if it were 0 — against a record whose key value is -5 the
ascending comparator answers -1 as written, but 1 after replacing the
string by 0; the two verdicts differ, refuting the missing→0 reading for
malformed values. -/
theorem malformed_not_as_zero :
    sortComparator ⟨"momentum_score", "asc"⟩ recMalformed recNeg = -1
    ∧ sortComparator ⟨"momentum_score", "asc"⟩
        (setField recMalformed "momentum_score" (JSVal.num 0)) recNeg = 1
    ∧ sortComparator ⟨"momentum_score", "asc"⟩ recMalformed recNeg
        ≠ sortComparator ⟨"momentum_score", "asc"⟩
            (setField recMalformed "momentum_score" (JSVal.num 0)) recNeg := by
  exact ⟨by decide, by decide, by decide⟩

/-- C4 amended: only null/undefined sort-key values fall back to 0; a
string value propagates through `?? 0` and is compared by JS relational
semantics.  A string whose ToNumber conversion is NaN (a non-numeric
string such as "abc") compares NaN-like: against any record with a
numeric (or coalesced-to-0) key value the comparator answers -1 in both
argument orders whatever the direction — unlike the 1 the treat-as-0 rule
can demand.  A string ToNumber does convert is compared via its number:
in particular the empty string converts to 0 and is ordered against
numeric key values exactly as the missing-value rule would order it.
The derivation is total, so no error is ever raised. -/
theorem malformed_sortkey_nan (a b a0 : Stock) (cfg : SortConfig) (s : String) (n : Int)
    (ha : jsGet a cfg.key = JSVal.str s)
    (hs : toNumber (JSVal.str s) = none)
    (hb : nullish (jsGet b cfg.key) (JSVal.num 0) = JSVal.num n)
    (ha0 : jsGet a0 cfg.key = JSVal.str "") :
    sortComparator cfg a b = -1
    ∧ sortComparator cfg b a = -1
    ∧ (sortComparator cfg a b = 1 ∨ sortComparator cfg a b = -1)
    ∧ sortComparator cfg a0 b
        = sortComparator cfg (setField a0 cfg.key (JSVal.num 0)) b
    ∧ sortComparator cfg b a0
        = sortComparator cfg b (setField a0 cfg.key (JSVal.num 0)) := by
  have h1 : jsLt (JSVal.str s) (JSVal.num n) = false := by
    simp [jsLt, toNumber] at hs ⊢
    simp [hs]
  have h2 : jsLt (JSVal.num n) (JSVal.str s) = false := by
    simp [jsLt, toNumber] at hs ⊢
    simp [hs]
  have hset0 : jsGet (setField a0 cfg.key (JSVal.num 0)) cfg.key = JSVal.num 0 := by
    simp [setField, jsGet]
  have key1 : sortComparator cfg a b = -1 := by
    unfold sortComparator
    rw [ha, hb]
    by_cases hd : cfg.direction == "asc" <;> simp [hd, nullish, jsGt, h1, h2]
  have key2 : sortComparator cfg b a = -1 := by
    unfold sortComparator
    rw [ha, hb]
    by_cases hd : cfg.direction == "asc" <;> simp [hd, nullish, jsGt, h1, h2]
  have key4 : sortComparator cfg a0 b
      = sortComparator cfg (setField a0 cfg.key (JSVal.num 0)) b := by
    unfold sortComparator
    rw [ha0, hset0, hb]
    rfl
  have key5 : sortComparator cfg b a0
      = sortComparator cfg b (setField a0 cfg.key (JSVal.num 0)) := by
    unfold sortComparator
    rw [ha0, hset0, hb]
    rfl
  exact ⟨key1, key2, Or.inr key1, key4, key5⟩

/-- C4 amended witness: the "abc" record against the -5 record, and the
empty-string record against the same -5 record. -/
theorem malformed_sortkey_nan_witness :
    sortComparator ⟨"momentum_score", "asc"⟩ recMalformed recNeg = -1
    ∧ sortComparator ⟨"momentum_score", "asc"⟩ recNeg recMalformed = -1
    ∧ (sortComparator ⟨"momentum_score", "asc"⟩ recMalformed recNeg = 1
        ∨ sortComparator ⟨"momentum_score", "asc"⟩ recMalformed recNeg = -1)
    ∧ sortComparator ⟨"momentum_score", "asc"⟩ recEmptyStr recNeg
        = sortComparator ⟨"momentum_score", "asc"⟩
            (setField recEmptyStr "momentum_score" (JSVal.num 0)) recNeg
    ∧ sortComparator ⟨"momentum_score", "asc"⟩ recNeg recEmptyStr
        = sortComparator ⟨"momentum_score", "asc"⟩ recNeg
            (setField recEmptyStr "momentum_score" (JSVal.num 0)) :=
  malformed_sortkey_nan recMalformed recNeg recEmptyStr ⟨"momentum_score", "asc"⟩
    "abc" (-5) (by decide) (by decide) (by decide) (by decide)

/-- C8: the search predicate accepts a record iff the lower-cased search
term is a substring of the lower-cased symbol or of the lower-cased name;
an empty search term contributes no filter to the chain; and on the
scenario collection, searching "b" leaves exactly record B. -/
theorem search_matches_substring (q sym nm sec sig : String) (s : Stock)
    (stocks : List Stock)
    (hsym : jsGet s "symbol" = JSVal.str sym)
    (hnm : jsGet s "name" = JSVal.str nm) :
    searchPred q s
      = (strIncludes (jsToLower sym) (jsToLower q)
          || strIncludes (jsToLower nm) (jsToLower q))
    ∧ applyFilters "" sec sig stocks
        = stocks.filter (fun r =>
            (sec == "" || jsStrictEqStr (jsGet r "sector") sec)
            && (sig == "" || jsStrictEqStr (jsGet r "signal_type") sig))
    ∧ filteredStocks scenarioRecords "b" "" "" ⟨"momentumScore", "desc"⟩ = [recB] := by
  refine ⟨?_, ?_, by decide⟩
  · unfold searchPred
    rw [hsym, hnm]
  · rw [applyFilters_eq_filter]
    apply List.filter_congr
    intro r _
    simp [activePass]

/-- C8 witness: a record with symbol and name, searched by part of its
name, plus the scenario search. -/
theorem search_matches_substring_witness :
    searchPred "fos" recD
      = (strIncludes (jsToLower "INFY.NS") (jsToLower "fos")
          || strIncludes (jsToLower "Infosys") (jsToLower "fos"))
    ∧ applyFilters "" "IT" "" scenarioRecords
        = scenarioRecords.filter (fun r =>
            ("IT" == "" || jsStrictEqStr (jsGet r "sector") "IT")
            && ("" == "" || jsStrictEqStr (jsGet r "signal_type") ""))
    ∧ filteredStocks scenarioRecords "b" "" "" ⟨"momentumScore", "desc"⟩ = [recB] :=
  search_matches_substring "fos" "INFY.NS" "Infosys" "IT" "" recD scenarioRecords
    (by decide) (by decide)

/-- C10 witness: a Wednesday mid-session instant, plus weekend checks at
a mid-session time. -/
theorem isMarketOpen_weekday_window_witness :
    (isMarketOpen ⟨3, 10, 30⟩ = true ↔
      1 ≤ (3 : Nat) ∧ (3 : Nat) ≤ 5
        ∧ 9 * 60 + 15 ≤ 10 * 60 + 30
        ∧ 10 * 60 + 30 ≤ 15 * 60 + 30)
    ∧ isMarketOpen ⟨0, 10, 30⟩ = false
    ∧ isMarketOpen ⟨6, 10, 30⟩ = false :=
  isMarketOpen_weekday_window ⟨3, 10, 30⟩ 10 30 (by decide)

end MomentumFinder
